import Mathlib

/-!
Shallow embedding of the client-side interaction core of the ECE 350 RAG
assistant (Next.js client): the evidence data model and source deduplication,
the chat session hook, the PDF selection coordinator, the PDF viewer page or
zoom logic, and the API client health check.

Numbers: JS numbers that are only stepped by fixed decimal increments and
compared (zoom scales, relevance scores, geometry) are modelled as rationals;
page counts and page numbers as integers.  No arithmetic in the modelled code
depends on float rounding: scores are only compared, and scales are only
clamped with min and max, which are exact on floats.
-/

namespace Rag

/-! ## Data model (client/src/lib/types.ts) -/

/-- The `lecture` field of a `Source`. -/
structure Lecture where
  num : Int
  title : String
deriving DecidableEq

/-- The `location` field of a `Source`.  The TS field `section` is a Lean
keyword, hence the trailing underscore. -/
structure Location where
  section_ : String
  subsection : Option String
  breadcrumb : String
  short_breadcrumb : String
deriving DecidableEq

/-- The nested `source` field of a `Source` (provenance of the chunk). -/
structure SourceRef where
  tex_file : String
  tex_lines : Int × Int
  pdf_file : Option String
  pdf_pages : Option (Int × Int)
deriving DecidableEq

/-- The `features` field of a `Source`. -/
structure Features where
  has_code : Bool
  has_math : Bool
  has_images : List String
  keywords : List String
deriving DecidableEq

/-- The `position` field of a `Source`. -/
structure Position where
  in_section : String
  in_lecture : Int
deriving DecidableEq

/-- An evidence item (TS interface `Source`).  `relevance_score` is a float
in [0,1] in TS; the modelled code only ever compares scores, so a rational
is a faithful model. -/
structure Source where
  chunk_id : String
  relevance_score : ℚ
  lecture : Lecture
  location : Location
  source : SourceRef
  text_preview : String
  text_full : String
  word_count : Int
  features : Features
  position : Position
deriving DecidableEq

/-! ## Source deduplication (`deduplicateSources`, identical copies in
`page.tsx` and `SourcePanel.tsx`)

```js
const seen = new Map<string, Source>();
for (const source of sources) {
  const key = source.location.breadcrumb;
  const existing = seen.get(key);
  if (!existing || source.relevance_score > existing.relevance_score) {
    seen.set(key, source);
  }
}
return Array.from(seen.values());
```

A JS `Map` is modelled as an association list in key-insertion order:
`Map.get` is `findEntry`, and `Map.set` is `mapSet`, which updates an
existing key in place (JS `set` on an existing key keeps its position) and
appends a missing key at the end. -/

/-- Model of `Map.get`: the value stored under key `k`, if any. -/
def findEntry (m : List (String × Source)) (k : String) : Option Source :=
  match m with
  | [] => none
  | (k₁, v) :: rest => if k₁ = k then some v else findEntry rest k

/-- Model of `Map.set`: update an existing key in place, or append a new binding. -/
def mapSet (m : List (String × Source)) (k : String) (v : Source) :
    List (String × Source) :=
  match m with
  | [] => [(k, v)]
  | (k₁, v₁) :: rest =>
      if k₁ = k then (k, v) :: rest else (k₁, v₁) :: mapSet rest k v

/-- One iteration of the `for` loop of `deduplicateSources`. -/
def dedupStep (m : List (String × Source)) (s : Source) :
    List (String × Source) :=
  match findEntry m s.location.breadcrumb with
  | none => mapSet m s.location.breadcrumb s
  | some existing =>
      if existing.relevance_score < s.relevance_score then
        mapSet m s.location.breadcrumb s
      else m

/-- The function `deduplicateSources` from `page.tsx` / `SourcePanel.tsx`:
fold the loop body over the input, then `Array.from(seen.values())`. -/
def deduplicateSources (sources : List Source) : List Source :=
  (sources.foldl dedupStep []).map Prod.snd

/-! ### Specification-side description of dedupe

The spec says: group by exact breadcrumb; keep in each group the item of
maximum relevance score, ties keeping the item encountered first; output in
first-occurrence order of each surviving key.  The following definitions
transcribe those words; the refinement theorem for the dedupe claim states
that `deduplicateSources` computes exactly this. -/

/-- Distinct breadcrumbs of `sources` in order of first occurrence,
appended after the already-collected keys `ks`. -/
def firstOccKeysAux (ks : List String) (sources : List Source) : List String :=
  sources.foldl
    (fun ks s =>
      if s.location.breadcrumb ∈ ks then ks else ks ++ [s.location.breadcrumb])
    ks

/-- Distinct breadcrumbs of `sources` in order of first occurrence. -/
def firstOccKeys (sources : List Source) : List String :=
  firstOccKeysAux [] sources

/-- Champion step: keep the current best unless the candidate has a strictly
greater score (so ties keep the earlier item). -/
def champ (o : Option Source) (s : Source) : Option Source :=
  match o with
  | none => some s
  | some b => some (if b.relevance_score < s.relevance_score then s else b)

/-- Best-scoring item of `l`, starting from the current champion `o`. -/
def pickBestFrom (o : Option Source) (l : List Source) : Option Source :=
  l.foldl champ o

/-- The item of maximum relevance score in `l`, ties keeping the item
encountered first. -/
def pickBest (l : List Source) : Option Source :=
  pickBestFrom none l

/-- The dedupe operation as worded by the spec: for each distinct breadcrumb
in first-occurrence order, the best-scoring item among the inputs carrying
that breadcrumb. -/
def dedupeSpec (sources : List Source) : List Source :=
  (firstOccKeys sources).filterMap
    (fun k => pickBest (sources.filter (fun s => s.location.breadcrumb = k)))

/-! ## Conversation session (`useChat` in hooks/useChat.ts with `lib/api.ts`)

The client is single threaded and event driven.  A session history is a list
of events: the user entry points (`sendMessage`, `clearChat`,
`cancelRequest`) and the settlement of an outstanding `fetch`.  The state
records the React state (`messages`, `isLoading`, `error`), the ref
`loadingRef`, the single `abortController` slot of the module-level
`apiClient`, and the set of outstanding fetches, each tagged with whether its
controller has been aborted.  TEST_MODE is false in the source, so the
TEST_MODE branch of `sendMessage` is dead code.  Message ids and timestamps
are generated from the clock and a random suffix and are never read by any
transition, so they are omitted from the message model; the optional
confidence and stats fields of an assistant message are likewise never read
by the modelled logic. -/

/-- The `role` field of a ChatMessage. -/
inductive Role where
  | user
  | assistant
deriving DecidableEq

/-- A transcript entry (TS interface `ChatMessage`), restricted to the
fields the session logic reads or that the claims mention. -/
structure ChatMessage where
  role : Role
  content : String
  sources : Option (List Source)
deriving DecidableEq

/-- Settlement of the query fetch as seen by the server: either a 2xx
response carrying a `QueryResponse` (answer and sources), or an error path
(non-2xx status or network failure), which `APIClient.query` turns into a
thrown `Error` with a message.  If the AbortController of the fetch was
aborted first, the fetch rejects with an abort error instead, whatever the
server outcome was. -/
inductive FetchOutcome where
  | success (answer : String) (sources : List Source)
  | failure (message : String)
deriving DecidableEq

/-- The message text of the DOM abort error produced by
`AbortController.abort()` with no reason. -/
def abortErrorMessage : String := "signal is aborted without reason"

/-- Session state: React state of `useChat`, the `loadingRef` ref, the
`apiClient.abortController` slot (holding the id of the request it controls),
the outstanding fetches (id, aborted flag), and the id counter. -/
structure ChatState where
  messages : List ChatMessage
  isLoading : Bool
  error : Option String
  loadingRef : Bool
  abortController : Option Nat
  outstanding : List (Nat × Bool)
  nextId : Nat
deriving DecidableEq

/-- The initial state of `useChat` at mount. -/
def initChatState : ChatState :=
  { messages := [], isLoading := false, error := none, loadingRef := false,
    abortController := none, outstanding := [], nextId := 0 }

/-- Model of JS `String.prototype.trim`. -/
def jsTrim (s : String) : String :=
  ⟨((s.data.dropWhile Char.isWhitespace).reverse.dropWhile
      Char.isWhitespace).reverse⟩

/-- Mark the fetch controlled by `r` as aborted (aborting a controller whose
fetch has already settled has no effect, because the id is gone from the
outstanding list). -/
def markAborted (outstanding : List (Nat × Bool)) (r : Nat) :
    List (Nat × Bool) :=
  outstanding.map (fun p => if p.1 = r then (p.1, true) else p)

/-- Model of `APIClient.cancelPendingRequest`: abort the held controller, if any, and
null the slot. -/
def cancelPendingRequest (s : ChatState) : ChatState :=
  match s.abortController with
  | some r => { s with outstanding := markAborted s.outstanding r,
                       abortController := none }
  | none => s

/-- Model of `sendMessage(question)` up to its first suspension point: the no-op
guard, the optimistic user append, and the synchronous prefix of
`APIClient.query` (cancel any pending request, install a fresh
AbortController, start the fetch). -/
def sendMessage (s : ChatState) (question : String) : ChatState :=
  if s.loadingRef ∨ jsTrim question = "" then s
  else
    let s₁ := { s with
      loadingRef := true, isLoading := true, error := none,
      messages := s.messages ++
        [{ role := Role.user, content := jsTrim question, sources := none }] }
    let s₂ := cancelPendingRequest s₁
    { s₂ with
      abortController := some s₂.nextId,
      outstanding := s₂.outstanding ++ [(s₂.nextId, false)],
      nextId := s₂.nextId + 1 }

/-- The `catch` branch of `sendMessage` followed by its `finally` branch:
record the error, append the synthetic assistant error message, drop the
loading flags. -/
def applyCatch (s : ChatState) (msg : String) : ChatState :=
  { s with
    error := some msg,
    messages := s.messages ++
      [{ role := Role.assistant,
         content := "Sorry, I encountered an error: " ++ msg,
         sources := none }],
    isLoading := false, loadingRef := false }

/-- The success continuation of `sendMessage` followed by its `finally`
branch: append the assistant message built from the response, drop the
loading flags. -/
def applySuccess (s : ChatState) (answer : String) (sources : List Source) :
    ChatState :=
  { s with
    messages := s.messages ++
      [{ role := Role.assistant, content := answer, sources := some sources }],
    isLoading := false, loadingRef := false }

/-- Association lookup in the outstanding list. -/
def lookupOutstanding (l : List (Nat × Bool)) (r : Nat) : Option Bool :=
  match l with
  | [] => none
  | (r₁, a) :: rest => if r₁ = r then some a else lookupOutstanding rest r

/-- Settlement of the fetch of request `r`: the event-loop turn in which the
awaited `fetch` promise of `sendMessage` settles and the rest of the async
function runs.  An aborted fetch rejects with the abort error regardless of
the server outcome; the code has no special handling for abort rejections,
so they run the same catch branch as any failure.  A request that is not
outstanding (already settled) produces no further transition. -/
def resolveRequest (s : ChatState) (r : Nat) (o : FetchOutcome) : ChatState :=
  match lookupOutstanding s.outstanding r with
  | none => s
  | some aborted =>
      let s₁ := { s with outstanding := s.outstanding.filter (fun p => p.1 ≠ r) }
      if aborted then applyCatch s₁ abortErrorMessage
      else
        match o with
        | FetchOutcome.success ans srcs => applySuccess s₁ ans srcs
        | FetchOutcome.failure msg => applyCatch s₁ msg

/-- Model of `clearChat`: empty the transcript, clear the error, abort any pending
request.  It does not touch `isLoading` or `loadingRef`. -/
def clearChat (s : ChatState) : ChatState :=
  cancelPendingRequest { s with messages := [], error := none }

/-- Model of `cancelRequest`: abort any pending request and drop the loading flags. -/
def cancelRequest (s : ChatState) : ChatState :=
  let s₁ := cancelPendingRequest s
  { s₁ with isLoading := false, loadingRef := false }

/-- An event-loop turn of the session. -/
inductive ChatEvent where
  | send (question : String)
  | clear
  | cancel
  | resolve (r : Nat) (outcome : FetchOutcome)
deriving DecidableEq

/-- The transition function of the session. -/
def chatStep (s : ChatState) : ChatEvent → ChatState
  | ChatEvent.send q => sendMessage s q
  | ChatEvent.clear => clearChat s
  | ChatEvent.cancel => cancelRequest s
  | ChatEvent.resolve r o => resolveRequest s r o

/-- The session state after a history of events from mount. -/
def runChat (events : List ChatEvent) : ChatState :=
  events.foldl chatStep initChatState

/-! ## Selection coordinator (`useSourceSelection` in hooks/useChat.ts)

`closePdf` schedules `setTimeout(() => { setSelectedSource(null);
setPdfOrigin("chat"); }, 300)` and never stores or clears the timer id, so
every scheduled clear eventually fires.  The state counts the scheduled
clears still pending; the `timerFire` event is the event-loop turn in which
one of them runs. -/

/-- The `PdfOrigin` type of hooks/useChat.ts: "chat" or "sources-panel". -/
inductive PdfOrigin where
  | chat
  | sourcesPanel
deriving DecidableEq

/-- State of `useSourceSelection` plus the pending delayed clears. -/
structure SelectionState where
  selectedSource : Option Source
  isPdfOpen : Bool
  pdfOrigin : PdfOrigin
  pendingClears : Nat
deriving DecidableEq

/-- Initial selection state at mount. -/
def initSelectionState : SelectionState :=
  { selectedSource := none, isPdfOpen := false, pdfOrigin := PdfOrigin.chat,
    pendingClears := 0 }

/-- Model of `openPdf(source, origin = "chat")`. -/
def openPdf (s : SelectionState) (src : Source) (origin : PdfOrigin) :
    SelectionState :=
  { s with selectedSource := some src, pdfOrigin := origin, isPdfOpen := true }

/-- Model of `closePdf`: close immediately and schedule a delayed clear (300 ms). -/
def closePdf (s : SelectionState) : SelectionState :=
  { s with isPdfOpen := false, pendingClears := s.pendingClears + 1 }

/-- Model of `swapPdf(source)`: replace the selected source only. -/
def swapPdf (s : SelectionState) (src : Source) : SelectionState :=
  { s with selectedSource := some src }

/-- One scheduled `setTimeout` callback of `closePdf` runs: null the
selected source and reset the origin.  No-op when nothing is pending. -/
def timerFire (s : SelectionState) : SelectionState :=
  match s.pendingClears with
  | 0 => s
  | n + 1 =>
      { s with selectedSource := none, pdfOrigin := PdfOrigin.chat,
               pendingClears := n }

/-! ## PDF viewer panel logic (`PDFViewerPanel` in PDFViewerPanel.tsx)

The zoom scale, page navigation and scroll tracking; geometry is modelled
with rationals. -/

/-- A zoom interaction: the zoom-in and zoom-out toolbar buttons, or a
ctrl/meta wheel event with the sign of its deltaY. -/
inductive ZoomEvent where
  | zoomInClick
  | zoomOutClick
  | wheel (deltaYPos : Bool)
deriving DecidableEq

/-- Effect of one zoom interaction on the scale: `zoomIn` is
`min(s + 0.25, 3)`, `zoomOut` is `max(s - 0.25, 0.5)`, and the ctrl/meta
wheel handler is `min(max(s + delta, 0.5), 3)` with `delta = -0.1` when
`deltaY > 0` and `0.1` otherwise. -/
def applyZoom (s : ℚ) : ZoomEvent → ℚ
  | ZoomEvent.zoomInClick => min (s + 1/4) 3
  | ZoomEvent.zoomOutClick => max (s - 1/4) (1/2)
  | ZoomEvent.wheel deltaYPos =>
      min (max (s + (if deltaYPos then -(1/10) else 1/10)) (1/2)) 3

/-- The default scale of the panel viewer: `useState(1.2)`, restored on
every source change. -/
def defaultScale : ℚ := 6/5

/-- The scale after a finite sequence of zoom interactions from a start
scale. -/
def runZoom (start : ℚ) (events : List ZoomEvent) : ℚ :=
  events.foldl applyZoom start

/-- Model of `goToPage(page)` of PDFViewerModal.tsx: clamp into `[1, numPages]` when
`numPages` is truthy (non-null and non-zero), otherwise leave the current
page unchanged. -/
def goToPage (numPages : Option Int) (currentPage : Int) (page : Int) : Int :=
  match numPages with
  | some n => if n ≠ 0 then max 1 (min page n) else currentPage
  | none => currentPage

/-- Geometry of one rendered page block in `pageRefs` iteration order: page
number, bounding-rect top and height. -/
structure PageBlock where
  pageNum : Nat
  top : ℚ
  height : ℚ
deriving DecidableEq

/-- The vertical center of a page block: `rect.top + rect.height / 2`. -/
def pageCenter (b : PageBlock) : ℚ := b.top + b.height / 2

/-- The reference point of the scroll handler: one third of the way down the
container, `containerRect.top + containerRect.height / 3`. -/
def scrollRefPoint (cTop cHeight : ℚ) : ℚ := cTop + cHeight / 3

/-- The `handleScroll` loop body: keep the page strictly closer to the
reference point than the best so far (`closestDistance` starts at
Infinity, which every finite distance beats, modelled by `none`). -/
def closestStep (ref : ℚ) (acc : Option (Nat × ℚ)) (b : PageBlock) :
    Option (Nat × ℚ) :=
  match acc with
  | none => some (b.pageNum, |pageCenter b - ref|)
  | some (p, dmin) =>
      if |pageCenter b - ref| < dmin then some (b.pageNum, |pageCenter b - ref|)
      else some (p, dmin)

/-- Model of `handleScroll`: the page reported as current after one scroll event,
given the container geometry and the rendered page blocks.  With no blocks
rendered the initial `closestPage = 1` survives. -/
def handleScroll (cTop cHeight : ℚ) (blocks : List PageBlock) : Nat :=
  match blocks.foldl (closestStep (scrollRefPoint cTop cHeight)) none with
  | some (p, _) => p
  | none => 1

/-! ## API client health check (`APIClient.checkHealth` in lib/api.ts)

`checkHealth` awaits the fetch inside `try`; a transport failure or non-OK
status is mapped to an unhealthy value.  On an OK response it executes
`return response.json()` — returning the parse promise without `await`, so
a body that fails to parse as JSON rejects the promise returned by
`checkHealth` outside the reach of its own try/catch. -/

/-- The TS `HealthResponse`. -/
structure HealthResponse where
  status : String
  message : Option String
deriving DecidableEq

/-- A transport outcome of `fetch("/api/health")`: rejection (network
failure) or a response with its `ok` flag, `statusText`, and the result of
parsing its body as JSON (`none` when the body is not valid JSON). -/
inductive HealthFetchResult where
  | networkFailure
  | response (ok : Bool) (statusText : String) (body : Option HealthResponse)
deriving DecidableEq

/-- Model of `APIClient.checkHealth`.  `Except.error` models a rejected promise
propagating to the caller. -/
def checkHealth : HealthFetchResult → Except String HealthResponse
  | HealthFetchResult.networkFailure =>
      Except.ok { status := "unhealthy", message := some "Failed to connect to API" }
  | HealthFetchResult.response ok statusText body =>
      if ok then
        match body with
        | some h => Except.ok h
        | none => Except.error "SyntaxError: Unexpected token in JSON"
      else
        Except.ok { status := "unhealthy", message := some statusText }

/-! ## Concrete values used by witnesses and counterexamples -/

/-- A concrete evidence item with breadcrumb "A" and score 1. -/
def srcA : Source :=
  { chunk_id := "a", relevance_score := 1, lecture := ⟨1, "t"⟩,
    location := ⟨"s", none, "A", "A"⟩,
    source := ⟨"f", (1, 2), some "p.pdf", some (3, 4)⟩,
    text_preview := "p", text_full := "q", word_count := 1,
    features := ⟨false, false, [], []⟩, position := ⟨"1", 1⟩ }

/-- A concrete evidence item with breadcrumb "A" and score 0. -/
def srcA0 : Source :=
  { srcA with chunk_id := "a0", relevance_score := 0 }

/-- A concrete evidence item with breadcrumb "B" and score 2. -/
def srcB : Source :=
  { srcA with chunk_id := "b", relevance_score := 2,
              location := ⟨"s", none, "B", "B"⟩ }

/-! ### Map-model lemmas -/

theorem findEntry_mapSet_self (m : List (String × Source)) (k : String)
    (v : Source) : findEntry (mapSet m k v) k = some v := by
  induction m with
  | nil => simp [mapSet, findEntry]
  | cons p rest ih =>
      obtain ⟨k₁, v₁⟩ := p
      by_cases h : k₁ = k
      · subst h; simp [mapSet, findEntry]
      · simp [mapSet, findEntry, h, ih]

theorem findEntry_mapSet_ne (m : List (String × Source)) {k k₂ : String}
    (v : Source) (h : k ≠ k₂) :
    findEntry (mapSet m k v) k₂ = findEntry m k₂ := by
  induction m with
  | nil => simp [mapSet, findEntry, h]
  | cons p rest ih =>
      obtain ⟨k₁, v₁⟩ := p
      by_cases hk : k₁ = k
      · subst hk; simp [mapSet, findEntry, h]
      · simp [mapSet, findEntry, hk, ih]

theorem findEntry_eq_none_iff (m : List (String × Source)) (k : String) :
    findEntry m k = none ↔ k ∉ m.map Prod.fst := by
  induction m with
  | nil => simp [findEntry]
  | cons p rest ih =>
      obtain ⟨k₁, v₁⟩ := p
      by_cases h : k₁ = k
      · subst h; simp [findEntry]
      · simp [findEntry, h, ih, Ne.symm h]

theorem keys_mapSet_of_found (m : List (String × Source)) {k : String}
    (v : Source) (h : findEntry m k ≠ none) :
    (mapSet m k v).map Prod.fst = m.map Prod.fst := by
  induction m with
  | nil => simp [findEntry] at h
  | cons p rest ih =>
      obtain ⟨k₁, v₁⟩ := p
      by_cases hk : k₁ = k
      · subst hk; simp [mapSet]
      · simp [findEntry, hk] at h
        simp [mapSet, hk, ih h]

theorem keys_mapSet_of_notfound (m : List (String × Source)) {k : String}
    (v : Source) (h : findEntry m k = none) :
    (mapSet m k v).map Prod.fst = m.map Prod.fst ++ [k] := by
  induction m with
  | nil => simp [mapSet]
  | cons p rest ih =>
      obtain ⟨k₁, v₁⟩ := p
      by_cases hk : k₁ = k
      · subst hk; simp [findEntry] at h
      · simp [findEntry, hk] at h
        simp [mapSet, hk, ih h]

theorem mem_mapSet (m : List (String × Source)) (k : String) (v : Source)
    (p : String × Source) (h : p ∈ mapSet m k v) : p ∈ m ∨ p = (k, v) := by
  induction m with
  | nil => simp [mapSet] at h; simp [h]
  | cons q rest ih =>
      obtain ⟨k₁, v₁⟩ := q
      by_cases hk : k₁ = k
      · subst hk
        simp [mapSet] at h
        rcases h with h | h
        · right; simp [h]
        · left; simp [h]
      · simp [mapSet, hk] at h
        rcases h with h | h
        · left; simp [h]
        · rcases ih h with h₁ | h₁
          · left; simp [h₁]
          · right; exact h₁

theorem findEntry_of_mem_nodup (m : List (String × Source))
    (hnd : (m.map Prod.fst).Nodup) {k : String} {v : Source}
    (h : (k, v) ∈ m) : findEntry m k = some v := by
  induction m with
  | nil => simp at h
  | cons p rest ih =>
      obtain ⟨k₁, v₁⟩ := p
      simp only [List.map_cons, List.nodup_cons] at hnd
      rcases List.mem_cons.mp h with h₁ | h₁
      · rw [show k₁ = k from (Prod.mk.injEq .. ▸ h₁.symm).1,
          show v₁ = v from (Prod.mk.injEq .. ▸ h₁.symm).2]
        simp [findEntry]
      · have hk : k₁ ≠ k := by
          intro heq
          exact hnd.1 (heq ▸ List.mem_map_of_mem Prod.fst h₁)
        simp [findEntry, hk, ih hnd.2 h₁]

/-! ### Characterizing the dedupe fold -/

theorem keys_dedupStep (m : List (String × Source)) (s : Source) :
    (dedupStep m s).map Prod.fst =
      if s.location.breadcrumb ∈ m.map Prod.fst then m.map Prod.fst
      else m.map Prod.fst ++ [s.location.breadcrumb] := by
  rcases h : findEntry m s.location.breadcrumb with _ | ex
  · simp only [dedupStep, h]
    rw [keys_mapSet_of_notfound m s h,
      if_neg ((findEntry_eq_none_iff m _).mp h)]
  · simp only [dedupStep, h]
    have hmem : s.location.breadcrumb ∈ m.map Prod.fst := by
      by_contra hc
      rw [(findEntry_eq_none_iff m _).mpr hc] at h
      exact Option.noConfusion h
    have hne : findEntry m s.location.breadcrumb ≠ none := by simp [h]
    by_cases hlt : ex.relevance_score < s.relevance_score
    · rw [if_pos hlt, keys_mapSet_of_found m s hne, if_pos hmem]
    · rw [if_neg hlt, if_pos hmem]

theorem findEntry_dedupStep (m : List (String × Source)) (s : Source)
    (k : String) :
    findEntry (dedupStep m s) k =
      if s.location.breadcrumb = k then champ (findEntry m k) s
      else findEntry m k := by
  rcases h : findEntry m s.location.breadcrumb with _ | ex
  · simp only [dedupStep, h]
    by_cases hk : s.location.breadcrumb = k
    · subst hk
      rw [findEntry_mapSet_self, if_pos rfl, h]
      simp [champ]
    · rw [findEntry_mapSet_ne m s hk, if_neg hk]
  · simp only [dedupStep, h]
    by_cases hk : s.location.breadcrumb = k
    · subst hk
      rw [if_pos rfl, h]
      by_cases hlt : ex.relevance_score < s.relevance_score
      · rw [if_pos hlt, findEntry_mapSet_self]
        simp [champ, hlt]
      · rw [if_neg hlt, h]
        simp [champ, hlt]
    · by_cases hlt : ex.relevance_score < s.relevance_score
      · rw [if_pos hlt, findEntry_mapSet_ne m s hk, if_neg hk]
      · rw [if_neg hlt, if_neg hk]

theorem pickBestFrom_cons (o : Option Source) (s : Source) (l : List Source) :
    pickBestFrom o (s :: l) = pickBestFrom (champ o s) l := rfl

theorem firstOccKeysAux_cons (ks : List String) (s : Source)
    (xs : List Source) :
    firstOccKeysAux ks (s :: xs) =
      firstOccKeysAux
        (if s.location.breadcrumb ∈ ks then ks else ks ++ [s.location.breadcrumb])
        xs := rfl

theorem keys_foldl (xs : List Source) (m : List (String × Source)) :
    ((xs.foldl dedupStep m).map Prod.fst) =
      firstOccKeysAux (m.map Prod.fst) xs := by
  induction xs generalizing m with
  | nil => simp [firstOccKeysAux]
  | cons s xs ih =>
      rw [List.foldl_cons, ih, firstOccKeysAux_cons, keys_dedupStep]

theorem findEntry_foldl (xs : List Source) (m : List (String × Source))
    (k : String) :
    findEntry (xs.foldl dedupStep m) k =
      pickBestFrom (findEntry m k)
        (xs.filter (fun s => s.location.breadcrumb = k)) := by
  induction xs generalizing m with
  | nil => simp [pickBestFrom]
  | cons s xs ih =>
      rw [List.foldl_cons, ih]
      by_cases hk : s.location.breadcrumb = k
      · rw [List.filter_cons_of_pos (by simp [hk]), pickBestFrom_cons,
          findEntry_dedupStep, if_pos hk]
      · rw [List.filter_cons_of_neg (by simp [hk]),
          findEntry_dedupStep, if_neg hk]

theorem entry_breadcrumb_foldl (xs : List Source)
    (m : List (String × Source))
    (hm : ∀ p ∈ m, p.2.location.breadcrumb = p.1) :
    ∀ p ∈ xs.foldl dedupStep m, p.2.location.breadcrumb = p.1 := by
  induction xs generalizing m with
  | nil => simpa using hm
  | cons s xs ih =>
      rw [List.foldl_cons]
      refine ih (dedupStep m s) ?_
      intro p hp
      rcases h : findEntry m s.location.breadcrumb with _ | ex
      · simp only [dedupStep, h] at hp
        rcases mem_mapSet m _ s p hp with h₁ | h₁
        · exact hm p h₁
        · rw [h₁]
      · simp only [dedupStep, h] at hp
        by_cases hlt : ex.relevance_score < s.relevance_score
        · rw [if_pos hlt] at hp
          rcases mem_mapSet m _ s p hp with h₁ | h₁
          · exact hm p h₁
          · rw [h₁]
        · rw [if_neg hlt] at hp
          exact hm p hp

theorem firstOccKeysAux_nodup (xs : List Source) (ks : List String)
    (h : ks.Nodup) : (firstOccKeysAux ks xs).Nodup := by
  induction xs generalizing ks with
  | nil => simpa [firstOccKeysAux] using h
  | cons s xs ih =>
      rw [firstOccKeysAux_cons]
      by_cases hmem : s.location.breadcrumb ∈ ks
      · rw [if_pos hmem]; exact ih ks h
      · rw [if_neg hmem]
        refine ih _ ?_
        simp [List.nodup_append, h, hmem]

theorem filterMap_congr_mem {α β : Type} (l : List α) (f g : α → Option β)
    (h : ∀ a ∈ l, f a = g a) : l.filterMap f = l.filterMap g := by
  induction l with
  | nil => rfl
  | cons a l ih =>
      rw [List.filterMap_cons, List.filterMap_cons,
        h a (List.mem_cons_self a l), ih (fun b hb => h b (List.mem_cons_of_mem a hb))]

theorem map_snd_eq_filterMap (m : List (String × Source))
    (hnd : (m.map Prod.fst).Nodup) :
    m.map Prod.snd = (m.map Prod.fst).filterMap (fun k => findEntry m k) := by
  induction m with
  | nil => rfl
  | cons p rest ih =>
      obtain ⟨k, v⟩ := p
      simp only [List.map_cons, List.nodup_cons] at hnd ⊢
      rw [List.filterMap_cons]
      have hk : findEntry ((k, v) :: rest) k = some v := by
        simp [findEntry]
      rw [hk]
      have hcongr : (rest.map Prod.fst).filterMap
            (fun k₂ => findEntry ((k, v) :: rest) k₂) =
          (rest.map Prod.fst).filterMap (fun k₂ => findEntry rest k₂) := by
        refine filterMap_congr_mem _ _ _ ?_
        intro k₂ hk₂
        have : k ≠ k₂ := fun heq => hnd.1 (heq ▸ hk₂)
        simp [findEntry, this]
      rw [hcongr, ← ih hnd.2]

/-- The refinement lemma for source deduplication: the map-based loop of the
code computes exactly the grouping described by the spec. -/
theorem dedupe_eq_dedupeSpec (xs : List Source) :
    deduplicateSources xs = dedupeSpec xs := by
  unfold deduplicateSources dedupeSpec
  have hkeys : (xs.foldl dedupStep []).map Prod.fst = firstOccKeys xs := by
    rw [keys_foldl]; rfl
  have hnd : ((xs.foldl dedupStep []).map Prod.fst).Nodup := by
    rw [hkeys]
    exact firstOccKeysAux_nodup xs [] List.nodup_nil
  rw [map_snd_eq_filterMap _ hnd, hkeys]
  refine filterMap_congr_mem _ _ _ ?_
  intro k _
  rw [findEntry_foldl]
  rfl

/-! ### Idempotence and score domination -/

theorem breadcrumbs_dedupe_nodup (xs : List Source) :
    ((deduplicateSources xs).map (fun s => s.location.breadcrumb)).Nodup := by
  unfold deduplicateSources
  rw [List.map_map]
  have hinv := entry_breadcrumb_foldl xs [] (by simp)
  have : (xs.foldl dedupStep []).map ((fun s => s.location.breadcrumb) ∘ Prod.snd)
      = (xs.foldl dedupStep []).map Prod.fst :=
    List.map_congr_left (fun p hp => hinv p hp)
  rw [this, keys_foldl]
  exact firstOccKeysAux_nodup xs _ (by simp)

theorem firstOccKeysAux_of_nodup (ys : List Source) :
    ∀ ks : List String,
      (ks ++ ys.map (fun s => s.location.breadcrumb)).Nodup →
      firstOccKeysAux ks ys = ks ++ ys.map (fun s => s.location.breadcrumb) := by
  induction ys with
  | nil => intro ks _; simp [firstOccKeysAux]
  | cons y ys ih =>
      intro ks h
      rw [List.map_cons] at h
      have hmem : y.location.breadcrumb ∉ ks := by
        intro hc
        rw [List.nodup_append] at h
        exact h.2.2 hc (List.mem_cons_self _ _)
      have hassoc : ks ++ y.location.breadcrumb ::
          ys.map (fun s => s.location.breadcrumb) =
          (ks ++ [y.location.breadcrumb]) ++
            ys.map (fun s => s.location.breadcrumb) := by
        simp
      rw [firstOccKeysAux_cons, if_neg hmem, List.map_cons, hassoc,
        ih (ks ++ [y.location.breadcrumb]) (hassoc ▸ h)]

theorem filter_breadcrumb_singleton (ys : List Source)
    (hnd : (ys.map (fun s => s.location.breadcrumb)).Nodup) {y : Source}
    (hy : y ∈ ys) :
    ys.filter (fun s => s.location.breadcrumb = y.location.breadcrumb) = [y] := by
  induction ys with
  | nil => simp at hy
  | cons z ys ih =>
      rw [List.map_cons, List.nodup_cons] at hnd
      rcases List.mem_cons.mp hy with h | h
      · subst h
        rw [List.filter_cons_of_pos (by simp)]
        have : ys.filter (fun s => s.location.breadcrumb = y.location.breadcrumb)
            = [] := by
          rw [List.filter_eq_nil_iff]
          intro a ha
          simp only [decide_eq_true_eq]
          intro hc
          exact hnd.1 (hc ▸ List.mem_map_of_mem (fun s => s.location.breadcrumb) ha)
        rw [this]
      · have hne : z.location.breadcrumb ≠ y.location.breadcrumb := by
          intro hc
          exact hnd.1 (hc ▸ List.mem_map_of_mem (fun s => s.location.breadcrumb) h)
        rw [List.filter_cons_of_neg (by simp [hne]), ih hnd.2 h]

theorem dedupeSpec_of_nodup (ys : List Source)
    (hnd : (ys.map (fun s => s.location.breadcrumb)).Nodup) :
    dedupeSpec ys = ys := by
  unfold dedupeSpec firstOccKeys
  rw [firstOccKeysAux_of_nodup ys [] (by simpa using hnd), List.nil_append,
    List.filterMap_map]
  refine Eq.trans (filterMap_congr_mem ys _ some ?_) (List.filterMap_some ys)
  intro y hy
  show pickBest (ys.filter
    (fun s => s.location.breadcrumb = y.location.breadcrumb)) = some y
  rw [filter_breadcrumb_singleton ys hnd hy]
  rfl

theorem pickBestFrom_le (l : List Source) :
    ∀ (o : Option Source) (b : Source), pickBestFrom o l = some b →
      (∀ a : Source, o = some a → a.relevance_score ≤ b.relevance_score) ∧
      (∀ s ∈ l, s.relevance_score ≤ b.relevance_score) := by
  induction l with
  | nil =>
      intro o b h
      refine ⟨fun a ha => ?_, by simp⟩
      rw [ha] at h
      cases Option.some.injEq .. ▸ h
      exact le_refl _
  | cons s l ih =>
      intro o b h
      rw [pickBestFrom_cons] at h
      obtain ⟨ih₁, ih₂⟩ := ih (champ o s) b h
      have hs : s.relevance_score ≤ b.relevance_score := by
        rcases o with _ | a
        · exact ih₁ s rfl
        · by_cases hlt : a.relevance_score < s.relevance_score
          · exact ih₁ s (by simp [champ, hlt])
          · exact le_trans (le_of_not_lt hlt) (ih₁ a (by simp [champ, hlt]))
      refine ⟨fun a ha => ?_, fun t ht => ?_⟩
      · subst ha
        by_cases hlt : a.relevance_score < s.relevance_score
        · exact le_trans (le_of_lt hlt) hs
        · exact ih₁ a (by simp [champ, hlt])
      · rcases List.mem_cons.mp ht with h₁ | h₁
        · exact h₁ ▸ hs
        · exact ih₂ t h₁

theorem subset_firstOccKeysAux (xs : List Source) :
    ∀ ks : List String, ∀ k ∈ ks, k ∈ firstOccKeysAux ks xs := by
  induction xs with
  | nil => intro ks k hk; simpa [firstOccKeysAux] using hk
  | cons s xs ih =>
      intro ks k hk
      rw [firstOccKeysAux_cons]
      by_cases hmem : s.location.breadcrumb ∈ ks
      · rw [if_pos hmem]; exact ih ks k hk
      · rw [if_neg hmem]
        exact ih _ k (List.mem_append_left _ hk)

theorem mem_firstOccKeysAux (xs : List Source) :
    ∀ ks : List String, ∀ x ∈ xs,
      x.location.breadcrumb ∈ firstOccKeysAux ks xs := by
  induction xs with
  | nil => intro ks x hx; simp at hx
  | cons s xs ih =>
      intro ks x hx
      rw [firstOccKeysAux_cons]
      rcases List.mem_cons.mp hx with h | h
      · subst h
        by_cases hmem : x.location.breadcrumb ∈ ks
        · rw [if_pos hmem]
          exact subset_firstOccKeysAux xs ks _ hmem
        · rw [if_neg hmem]
          exact subset_firstOccKeysAux xs _ _ (by simp)
      · by_cases hmem : s.location.breadcrumb ∈ ks
        · rw [if_pos hmem]; exact ih ks x h
        · rw [if_neg hmem]; exact ih _ x h

theorem findEntry_mem (m : List (String × Source)) :
    ∀ (k : String) (v : Source), findEntry m k = some v → (k, v) ∈ m := by
  induction m with
  | nil => intro k v h; simp [findEntry] at h
  | cons p rest ih =>
      intro k v h
      obtain ⟨k₁, v₁⟩ := p
      by_cases hk : k₁ = k
      · subst hk
        simp [findEntry] at h
        simp [h]
      · rw [findEntry, if_neg hk] at h
        exact List.mem_cons_of_mem _ (ih k v h)

theorem dedupe_idem (xs : List Source) :
    deduplicateSources (deduplicateSources xs) = deduplicateSources xs :=
  (dedupe_eq_dedupeSpec _).trans (dedupeSpec_of_nodup _ (breadcrumbs_dedupe_nodup xs))

theorem dedupe_survivor_exists (xs : List Source) :
    ∀ x ∈ xs, ∃ y ∈ deduplicateSources xs,
      y.location.breadcrumb = x.location.breadcrumb := by
  intro x hx
  have hkeys : (xs.foldl dedupStep []).map Prod.fst = firstOccKeysAux [] xs := by
    rw [keys_foldl]; rfl
  have hk : x.location.breadcrumb ∈ (xs.foldl dedupStep []).map Prod.fst := by
    rw [hkeys]; exact mem_firstOccKeysAux xs [] x hx
  rcases hfe : findEntry (xs.foldl dedupStep []) x.location.breadcrumb with _ | v
  · exact absurd hk ((findEntry_eq_none_iff _ _).mp hfe)
  · have hmem := findEntry_mem _ _ _ hfe
    have hbc := entry_breadcrumb_foldl xs [] (by simp) _ hmem
    exact ⟨v, List.mem_map_of_mem Prod.snd hmem, hbc⟩

theorem dedupe_dominates (xs : List Source) :
    ∀ x ∈ xs, ∀ y ∈ deduplicateSources xs,
      y.location.breadcrumb = x.location.breadcrumb →
      x.relevance_score ≤ y.relevance_score := by
  intro x hx y hy hbc
  unfold deduplicateSources at hy
  obtain ⟨p, hp, hpy⟩ := List.mem_map.mp hy
  have hnd : ((xs.foldl dedupStep []).map Prod.fst).Nodup := by
    rw [keys_foldl]
    exact firstOccKeysAux_nodup xs _ (by simp)
  have hbcp : p.2.location.breadcrumb = p.1 :=
    entry_breadcrumb_foldl xs [] (by simp) p hp
  have hfe : findEntry (xs.foldl dedupStep []) x.location.breadcrumb = some y := by
    have : p.1 = x.location.breadcrumb := by rw [← hbcp, hpy, hbc]
    rw [← this, ← hpy]
    exact findEntry_of_mem_nodup _ hnd hp
  rw [findEntry_foldl xs [] x.location.breadcrumb] at hfe
  have hxf : x ∈ xs.filter
      (fun s => s.location.breadcrumb = x.location.breadcrumb) :=
    List.mem_filter.mpr ⟨hx, by simp⟩
  exact (pickBestFrom_le _ _ y hfe).2 x hxf

/-! ### Zoom invariant -/

theorem applyZoom_bounds (s : ℚ) (h₁ : 1/2 ≤ s) (h₂ : s ≤ 3) (e : ZoomEvent) :
    1/2 ≤ applyZoom s e ∧ applyZoom s e ≤ 3 := by
  cases e with
  | zoomInClick =>
      refine ⟨le_min (by linarith) (by norm_num), min_le_right _ _⟩
  | zoomOutClick =>
      refine ⟨le_max_right _ _, max_le (by linarith) (by norm_num)⟩
  | wheel deltaYPos =>
      refine ⟨le_min (le_max_right _ _) (by norm_num), min_le_right _ _⟩

theorem runZoom_bounds (events : List ZoomEvent) :
    ∀ s : ℚ, 1/2 ≤ s → s ≤ 3 →
      1/2 ≤ runZoom s events ∧ runZoom s events ≤ 3 := by
  induction events with
  | nil => intro s h₁ h₂; exact ⟨h₁, h₂⟩
  | cons e events ih =>
      intro s h₁ h₂
      obtain ⟨g₁, g₂⟩ := applyZoom_bounds s h₁ h₂ e
      exact ih (applyZoom s e) g₁ g₂

/-! ### Scroll tracking invariant -/

theorem foldl_closestStep_some (ref : ℚ) (blocks : List PageBlock) :
    ∀ (p : Nat) (d : ℚ),
      ∃ q e, blocks.foldl (closestStep ref) (some (p, d)) = some (q, e) ∧
        e ≤ d ∧
        ((q = p ∧ e = d) ∨
          ∃ b ∈ blocks, q = b.pageNum ∧ e = |pageCenter b - ref|) ∧
        ∀ b ∈ blocks, e ≤ |pageCenter b - ref| := by
  induction blocks with
  | nil =>
      intro p d
      exact ⟨p, d, rfl, le_refl _, Or.inl ⟨rfl, rfl⟩, by simp⟩
  | cons b blocks ih =>
      intro p d
      rw [List.foldl_cons]
      by_cases h : |pageCenter b - ref| < d
      · obtain ⟨q, e, heq, hle, hsrc, hall⟩ := ih b.pageNum |pageCenter b - ref|
        rw [show closestStep ref (some (p, d)) b =
            some (b.pageNum, |pageCenter b - ref|) by simp [closestStep, h]]
        refine ⟨q, e, heq, le_trans hle (le_of_lt h), ?_, ?_⟩
        · rcases hsrc with ⟨hq, he⟩ | ⟨b₁, hb₁, hq, he⟩
          · exact Or.inr ⟨b, List.mem_cons_self _ _, hq, he⟩
          · exact Or.inr ⟨b₁, List.mem_cons_of_mem _ hb₁, hq, he⟩
        · intro b₁ hb₁
          rcases List.mem_cons.mp hb₁ with h₁ | h₁
          · exact h₁ ▸ hle
          · exact hall b₁ h₁
      · obtain ⟨q, e, heq, hle, hsrc, hall⟩ := ih p d
        rw [show closestStep ref (some (p, d)) b = some (p, d) by
          simp [closestStep, h]]
        refine ⟨q, e, heq, hle, ?_, ?_⟩
        · rcases hsrc with hk | ⟨b₁, hb₁, hq, he⟩
          · exact Or.inl hk
          · exact Or.inr ⟨b₁, List.mem_cons_of_mem _ hb₁, hq, he⟩
        · intro b₁ hb₁
          rcases List.mem_cons.mp hb₁ with h₁ | h₁
          · exact h₁ ▸ le_trans hle (le_of_not_lt h)
          · exact hall b₁ h₁

/-! ## Claim theorems -/

/-- C4: for every ordered list of evidence items, `deduplicateSources`
groups them by exact breadcrumb, keeps in each group the single item with
the maximum relevance score (ties keeping the item encountered first), and
outputs survivors in first-occurrence order of their keys, not sorted by
score — that is, it computes exactly the spec-side function `dedupeSpec`. -/
theorem C4_dedupe_matches_spec (xs : List Source) :
    deduplicateSources xs = dedupeSpec xs :=
  dedupe_eq_dedupeSpec xs

/-- C9: `deduplicateSources` is idempotent, every input item has a survivor
carrying its breadcrumb, and every survivor scores at least as high as every
input item sharing its breadcrumb. -/
theorem C9_dedupe_idempotent_and_dominant (xs : List Source) :
    deduplicateSources (deduplicateSources xs) = deduplicateSources xs ∧
    (∀ x ∈ xs, ∃ y ∈ deduplicateSources xs,
      y.location.breadcrumb = x.location.breadcrumb) ∧
    (∀ x ∈ xs, ∀ y ∈ deduplicateSources xs,
      y.location.breadcrumb = x.location.breadcrumb →
      x.relevance_score ≤ y.relevance_score) :=
  ⟨dedupe_idem xs, dedupe_survivor_exists xs, dedupe_dominates xs⟩

/-- C9 witness: the theorem applied to the concrete list
`[srcA, srcA0, srcB]`, at the concrete sharing pair srcA0 (discarded) and
srcA (survivor). -/
theorem C9_witness :
    deduplicateSources (deduplicateSources [srcA, srcA0, srcB]) =
      deduplicateSources [srcA, srcA0, srcB] ∧
    srcA0.relevance_score ≤ srcA.relevance_score :=
  ⟨(C9_dedupe_idempotent_and_dominant [srcA, srcA0, srcB]).1,
   (C9_dedupe_idempotent_and_dominant [srcA, srcA0, srcB]).2.2 srcA0
     (by decide) srcA (by decide) (by decide)⟩

/-- C6: every finite sequence of zoom interactions (toolbar steps of 0.25
and ctrl/meta wheel steps of 0.1) applied from the default scale keeps the
scale within [0.5, 3]. -/
theorem C6_zoom_always_clamped (events : List ZoomEvent) :
    1/2 ≤ runZoom defaultScale events ∧ runZoom defaultScale events ≤ 3 :=
  runZoom_bounds events defaultScale (by norm_num [defaultScale])
    (by norm_num [defaultScale])

/-- C7: with a known page count `n ≥ 1`, `goToPage` yields a page in
`[1, n]`, clamping out-of-range requests to the nearest bound and leaving
in-range requests unchanged; before the page count is known it is a
no-op. -/
theorem C7_goToPage_clamped (n page current : Int) (h : 1 ≤ n) :
    (1 ≤ goToPage (some n) current page ∧ goToPage (some n) current page ≤ n) ∧
    (page < 1 → goToPage (some n) current page = 1) ∧
    (n < page → goToPage (some n) current page = n) ∧
    (1 ≤ page → page ≤ n → goToPage (some n) current page = page) ∧
    goToPage none current page = current := by
  have hmain : goToPage (some n) current page = max 1 (min page n) := by
    have hn : n ≠ 0 := by omega
    simp [goToPage, hn]
  rw [hmain]
  refine ⟨⟨?_, ?_⟩, ?_, ?_, ?_, rfl⟩ <;> omega

/-- C7 witness: the theorem at page count 5, requested page 9, current page
2: the request clamps to the upper bound 5. -/
theorem C7_witness : 1 ≤ (5 : Int) ∧ goToPage (some 5) 2 9 = 5 :=
  ⟨by norm_num, (C7_goToPage_clamped 5 9 2 (by norm_num)).2.2.1 (by norm_num)⟩

/-- C8: on a scroll event with at least one rendered page block, the
reported current page is the page number of a block whose vertical center
has minimum distance to the reference point one third of the way down the
viewport. -/
theorem C8_scroll_reports_closest_page (cTop cHeight : ℚ)
    (blocks : List PageBlock) (h : blocks ≠ []) :
    ∃ b ∈ blocks, handleScroll cTop cHeight blocks = b.pageNum ∧
      ∀ b₁ ∈ blocks,
        |pageCenter b - scrollRefPoint cTop cHeight| ≤
          |pageCenter b₁ - scrollRefPoint cTop cHeight| := by
  rcases blocks with _ | ⟨b, rest⟩
  · exact absurd rfl h
  obtain ⟨q, e, heq, hle, hsrc, hall⟩ :=
    foldl_closestStep_some (scrollRefPoint cTop cHeight) rest b.pageNum
      |pageCenter b - scrollRefPoint cTop cHeight|
  have hrun : handleScroll cTop cHeight (b :: rest) = q := by
    unfold handleScroll
    rw [List.foldl_cons]
    rw [show closestStep (scrollRefPoint cTop cHeight) none b =
        some (b.pageNum, |pageCenter b - scrollRefPoint cTop cHeight|) from rfl]
    rw [heq]
  have hmin : ∀ b₁ ∈ b :: rest,
      e ≤ |pageCenter b₁ - scrollRefPoint cTop cHeight| := by
    intro b₁ hb₁
    rcases List.mem_cons.mp hb₁ with h₁ | h₁
    · exact h₁ ▸ hle
    · exact hall b₁ h₁
  rcases hsrc with ⟨hq, he⟩ | ⟨b₁, hb₁, hq, he⟩
  · refine ⟨b, List.mem_cons_self _ _, by rw [hrun, hq], ?_⟩
    intro b₁ hb₁
    exact he ▸ hmin b₁ hb₁
  · refine ⟨b₁, List.mem_cons_of_mem _ hb₁, by rw [hrun, hq], ?_⟩
    intro b₂ hb₂
    exact he ▸ hmin b₂ hb₂

/-- C8 witness: two page blocks, container top 0 and height 300; the theorem
applies with the nonemptiness hypothesis discharged concretely. -/
theorem C8_witness :
    ([⟨1, 0, 400⟩, ⟨2, 400, 400⟩] : List PageBlock) ≠ [] ∧
    ∃ b ∈ ([⟨1, 0, 400⟩, ⟨2, 400, 400⟩] : List PageBlock),
      handleScroll 0 300 [⟨1, 0, 400⟩, ⟨2, 400, 400⟩] = b.pageNum ∧
      ∀ b₁ ∈ ([⟨1, 0, 400⟩, ⟨2, 400, 400⟩] : List PageBlock),
        |pageCenter b - scrollRefPoint 0 300| ≤
          |pageCenter b₁ - scrollRefPoint 0 300| :=
  ⟨by decide, C8_scroll_reports_closest_page 0 300 _ (by decide)⟩

/-- C1 counterexample: in the run [send "a", send "b", settle request 0
with a success], the second send is issued while the result of request 0 is
not yet applied; nevertheless request 0 stays the sole outstanding,
un-aborted request, the second send appends nothing, and the settlement of
request 0 appends an assistant message with its answer — so the resolution
of the request the claim calls superseded is applied, not discarded. -/
theorem C1_counterexample :
    (runChat [ChatEvent.send "a", ChatEvent.send "b"]).outstanding =
      [(0, false)] ∧
    (runChat [ChatEvent.send "a", ChatEvent.send "b"]).messages =
      [{ role := Role.user, content := "a", sources := none }] ∧
    (runChat [ChatEvent.send "a", ChatEvent.send "b",
        ChatEvent.resolve 0 (FetchOutcome.success "ansA" [])]).messages =
      [{ role := Role.user, content := "a", sources := none },
       { role := Role.assistant, content := "ansA", sources := some [] }] :=
  ⟨rfl, rfl, rfl⟩

/-- C1 amended: a send issued while a prior request is in flight is a
complete no-op — the session state is unchanged, no new request starts, and
the prior request is not superseded; its eventual resolution is the one
applied to the transcript. -/
theorem C1_amended_send_noop_while_loading (s : ChatState) (q : String)
    (h : s.loadingRef = true) : sendMessage s q = s := by
  simp [sendMessage, h]

/-- C1 witness: the amended theorem applied to the state after one send,
whose loading flag is set. -/
theorem C1_witness :
    (runChat [ChatEvent.send "a"]).loadingRef = true ∧
    sendMessage (runChat [ChatEvent.send "a"]) "b" =
      runChat [ChatEvent.send "a"] :=
  ⟨rfl, C1_amended_send_noop_while_loading _ "b" rfl⟩

/-- C2 at the failing input [send "q", clear, settle request 0]: right
after clear the transcript and error are cleared but `isLoading` is still
true; and when the aborted fetch settles, the generic catch branch appends
a synthetic error message on behalf of the cancelled request and records
the abort error — the transcript does not stay empty. -/
theorem C2_clear_is_undone_by_aborted_request :
    (runChat [ChatEvent.send "q", ChatEvent.clear]).messages = [] ∧
    (runChat [ChatEvent.send "q", ChatEvent.clear]).error = none ∧
    (runChat [ChatEvent.send "q", ChatEvent.clear]).isLoading = true ∧
    (runChat [ChatEvent.send "q", ChatEvent.clear,
        ChatEvent.resolve 0 (FetchOutcome.success "fine" [])]).messages =
      [{ role := Role.assistant,
         content := "Sorry, I encountered an error: " ++ abortErrorMessage,
         sources := none }] ∧
    (runChat [ChatEvent.send "q", ChatEvent.clear,
        ChatEvent.resolve 0 (FetchOutcome.success "fine" [])]).error =
      some abortErrorMessage :=
  ⟨rfl, rfl, rfl, rfl, rfl⟩

/-- C3 at the failing input [send "q", cancel, settle request 0]: cancel
does force the loading flags down without touching the transcript, but the
aborted fetch then settles through the generic catch branch, which appends
a synthetic assistant error message for the user-initiated abort. -/
theorem C3_cancel_appends_error_message :
    (runChat [ChatEvent.send "q", ChatEvent.cancel]).messages =
      [{ role := Role.user, content := "q", sources := none }] ∧
    (runChat [ChatEvent.send "q", ChatEvent.cancel]).isLoading = false ∧
    (runChat [ChatEvent.send "q", ChatEvent.cancel]).loadingRef = false ∧
    (runChat [ChatEvent.send "q", ChatEvent.cancel,
        ChatEvent.resolve 0 (FetchOutcome.failure "boom")]).messages =
      [{ role := Role.user, content := "q", sources := none },
       { role := Role.assistant,
         content := "Sorry, I encountered an error: " ++ abortErrorMessage,
         sources := none }] :=
  ⟨rfl, rfl, rfl, rfl⟩

/-- C5 at the failing input: open srcA, close (scheduling the delayed
clear), reopen srcB from the sources panel within the delay window, then
the scheduled clear fires: it nulls the selected source and resets the
origin even though the newer open had set them and the viewer is open —
the newer open loses to the pending clear. -/
theorem C5_reopen_loses_to_pending_clear :
    (openPdf (closePdf (openPdf initSelectionState srcA PdfOrigin.chat))
        srcB PdfOrigin.sourcesPanel).isPdfOpen = true ∧
    (openPdf (closePdf (openPdf initSelectionState srcA PdfOrigin.chat))
        srcB PdfOrigin.sourcesPanel).selectedSource = some srcB ∧
    (openPdf (closePdf (openPdf initSelectionState srcA PdfOrigin.chat))
        srcB PdfOrigin.sourcesPanel).pdfOrigin = PdfOrigin.sourcesPanel ∧
    (timerFire (openPdf (closePdf (openPdf initSelectionState srcA
        PdfOrigin.chat)) srcB PdfOrigin.sourcesPanel)).isPdfOpen = true ∧
    (timerFire (openPdf (closePdf (openPdf initSelectionState srcA
        PdfOrigin.chat)) srcB PdfOrigin.sourcesPanel)).selectedSource = none ∧
    (timerFire (openPdf (closePdf (openPdf initSelectionState srcA
        PdfOrigin.chat)) srcB PdfOrigin.sourcesPanel)).pdfOrigin =
      PdfOrigin.chat :=
  ⟨rfl, rfl, rfl, rfl, rfl, rfl⟩

/-- C10 counterexample: an OK response whose body fails JSON parsing makes
`checkHealth` reject (the parse promise is returned from inside the try
without await), so `checkHealth` is not total over all responses. -/
theorem C10_counterexample :
    checkHealth (HealthFetchResult.response true "OK" none) =
      Except.error "SyntaxError: Unexpected token in JSON" := rfl

/-- C10 amended: `checkHealth` returns a value for every transport outcome —
a network failure and a non-OK response are mapped to an unhealthy value
with a message, and an OK response with a well-formed body is returned —
but an OK response whose body fails JSON parsing propagates the rejection
to the caller. -/
theorem C10_amended_total_on_transport (st : String)
    (b : Option HealthResponse) (h : HealthResponse) :
    checkHealth HealthFetchResult.networkFailure =
      Except.ok { status := "unhealthy", message := some "Failed to connect to API" } ∧
    checkHealth (HealthFetchResult.response false st b) =
      Except.ok { status := "unhealthy", message := some st } ∧
    checkHealth (HealthFetchResult.response true st (some h)) = Except.ok h :=
  ⟨rfl, rfl, rfl⟩

end Rag
